import Mathlib

/-!
Verification development for the HTML-element extraction tool
(`src/utils/scrape.py` of the CLI-nData repository).

The pipeline of the tool is embedded shallowly:

* `is_xpath_selector`, `convert_selectors_to_xpath` — selector compilation
  (`is_xpath_selector` / `convert_selectors_to_xpath` in the source);
* `resolveParserCall` — the byte-source resolution half of
  `parse_html_document` (file vs. stream, empty-input fallback), with the
  read position of the opened file modelled explicitly by `ByteStream`;
* `extract_element_text`, `process_single_element`, `processItems`,
  `process_elements` — element extraction (`extract_element_text` and
  `process_elements` in the source);
* `write_output` — output formatting (`write_output` in the source);
* `main` — the orchestration of `main` in the source, parameterised by the
  external library capabilities (CSS-to-XPath translation, the two parsers,
  and XPath evaluation), which the source delegates to `cssselect` and
  `lxml`.

Machine strings are modelled by Lean `String`; Python `str.strip` is
embedded as `strip` below, and serialisation of an element node
(`etree.tostring`) as `tostring` over the explicit element tree `Elem`.
-/

set_option maxRecDepth 4096

namespace Scrape

/-- Whitespace characters removed by Python `str.strip` (ASCII range). -/
def isPySpace (c : Char) : Bool :=
  c = ' ' || c = '\t' || c = '\n' || c = '\r' || c.toNat = 11 || c.toNat = 12

/-- Strip leading and trailing whitespace from a character list
(the character-level content of Python `str.strip`). -/
def stripL (l : List Char) : List Char :=
  ((l.dropWhile isPySpace).reverse.dropWhile isPySpace).reverse

/-- Python `str.strip` on strings. -/
def strip (s : String) : String :=
  ⟨stripL s.data⟩

/-- An element node of the parsed tree, as the source observes it through
the `lxml` element interface: tag name, attribute list, text before the
first child, child elements, and tail text after the closing tag. -/
inductive Elem where
  | mk (tag : String) (attrs : List (String × String)) (text : String)
       (children : List Elem) (tail : String)

/-- `element.get(attribute)` of the `lxml` element interface: the value of
the named attribute, or `none` when the element lacks it. -/
def Elem.get (e : Elem) (name : String) : Option String :=
  match e with
  | .mk _ attrs _ _ _ => (attrs.find? (fun p => p.fst = name)).map (fun p => p.snd)

/-- Serialisation of an attribute list inside a start tag. -/
def attrsToString : List (String × String) → String
  | [] => ""
  | (k, v) :: rest => " " ++ k ++ "=" ++ "\"" ++ v ++ "\"" ++ attrsToString rest

mutual

/-- `etree.tostring(element)`: the full markup of the element, including
its tail text (the `lxml` default `with_tail=True`). -/
def tostring : Elem → String
  | .mk tag attrs text children tail =>
    "<" ++ tag ++ attrsToString attrs ++ ">" ++ text ++ tostringList children
      ++ "</" ++ tag ++ ">" ++ tail

/-- Serialisation of a list of sibling elements, in order. -/
def tostringList : List Elem → String
  | [] => ""
  | e :: es => tostring e ++ tostringList es

end

/-- One result item of an XPath evaluation as typed in the source
(`List[Union[str, etree.Element]]`): either a string value or an element
node. -/
inductive XItem where
  | str (s : String)
  | node (e : Elem)

/-- `extract_element_text` of the source: a string item is used verbatim;
an element with no requested attribute is serialised in full; otherwise
the named attribute is fetched, `none` when absent.  (The byte-decoding
step of the source is the identity here, since the model works directly
with decoded strings.) -/
def extract_element_text (element : XItem) (attr : String) : Option String :=
  match element with
  | .str s => some s
  | .node e => if attr = "" then some (tostring e) else e.get attr

/-- The body of the inner loop of `process_elements`: the extracted text
must be truthy (not `None`, not the empty string), is then stripped, and
is kept only when non-empty after stripping. -/
def process_single_element (element : XItem) (attr : String) : Option String :=
  match extract_element_text element attr with
  | none => none
  | some t =>
    if t = "" then none
    else if strip t = "" then none
    else some (strip t)

/-- The surviving stripped texts of one selector's match list, in match
order (the inner loop of `process_elements`). -/
def processItems (elements : List XItem) (attr : String) : List String :=
  elements.filterMap (fun element => process_single_element element attr)

/-- Result of `process_elements`: either the process exits early with the
given code (`sys.exit` inside the loop: code `0` for the existence-check
hit, code `1` for an XPath evaluation error), or the accumulated list of
extracted texts is returned. -/
inductive ProcResult where
  | earlyExit (code : Nat)
  | texts (l : List String)
  deriving DecidableEq, Repr

/-- `process_elements` of the source: evaluate each XPath expression in
order against the document (evaluation is the external `lxml` call,
passed in as `evalQ`); an evaluation error exits with code 1; in
existence-check mode a non-empty raw match list exits with code 0 at
once; otherwise the surviving stripped texts of the matches are
accumulated. -/
def process_elements (evalQ : String → Except String (List XItem))
    (attr : String) (check_existence : Bool) :
    List String → List String → ProcResult
  | [], acc => ProcResult.texts acc
  | x :: rest, acc =>
    match evalQ x with
    | Except.error _ => ProcResult.earlyExit 1
    | Except.ok elements =>
      if check_existence = true ∧ elements.isEmpty = false then ProcResult.earlyExit 0
      else process_elements evalQ attr check_existence rest
        (acc ++ processItems elements attr)

/-- The exit code `main` produces from the result of `process_elements`
in existence-check mode: an early exit keeps its code, and an exhausted
selector list reports `0` exactly when some text survived (in check mode
the surviving list is always empty, so this is `1`). -/
def checkModeExit : ProcResult → Nat
  | ProcResult.earlyExit code => code
  | ProcResult.texts l => if l = [] then 1 else 0

/-- Python `s.startswith(pre)` at the character level. -/
def startsWithL : List Char → List Char → Bool
  | _, [] => true
  | [], _ :: _ => false
  | c :: cs, p :: ps => c = p && startsWithL cs ps

/-- Python `s.startswith(pre)` on strings. -/
def strStartsWith (s pre : String) : Bool :=
  startsWithL s.data pre.data

/-- `is_xpath_selector` of the source: a selector is treated as XPath
when it starts with `//`, `./` or `(`. -/
def is_xpath_selector (selector : String) : Bool :=
  strStartsWith selector "//" || strStartsWith selector "./" || strStartsWith selector "("

/-- The two ways selector compilation aborts the invocation in the
source: a CSS selector with the `cssselect` library missing, or a CSS
selector the translator rejects. -/
inductive CompileError where
  | capabilityMissing (selector : String)
  | invalidSelector (selector : String) (msg : String)
  deriving DecidableEq, Repr

/-- `convert_selectors_to_xpath` of the source: each selector in order is
kept verbatim when classified as XPath, aborts with `capabilityMissing`
when it is CSS and the translator capability (`HAS_CSSSELECT`) is absent,
and is otherwise passed to the external translator `cssToXpath`
(`GenericTranslator().css_to_xpath`), whose failure aborts with
`invalidSelector`. -/
def convert_selectors_to_xpath (hasCssSelect : Bool)
    (cssToXpath : String → Except String String) :
    List String → Except CompileError (List String)
  | [] => Except.ok []
  | s :: rest =>
    if is_xpath_selector s then
      (convert_selectors_to_xpath hasCssSelect cssToXpath rest).map
        (fun xs => s :: xs)
    else if hasCssSelect = false then
      Except.error (CompileError.capabilityMissing s)
    else
      match cssToXpath s with
      | Except.error msg => Except.error (CompileError.invalidSelector s msg)
      | Except.ok x =>
        (convert_selectors_to_xpath hasCssSelect cssToXpath rest).map
          (fun xs => x :: xs)

/-- Python `sep.join(entries)`. -/
def joinWith (sep : String) : List String → String
  | [] => ""
  | [t] => t
  | t :: rest => t ++ sep ++ joinWith sep rest

/-- `write_output` of the source, with the stream writes concatenated
into the produced standard-output string: optional fixed HTML envelope
opening, the tab-joined entries when the list is non-empty, optional
envelope closing, and a final newline. -/
def write_output (extracted_texts : List String) (include_body_tags : Bool) : String :=
  (if include_body_tags then "<!DOCTYPE html>" ++ "\n" ++ "<html>\n<body>" ++ "\n" else "")
    ++ (if extracted_texts.isEmpty then "" else joinWith "\t" extracted_texts)
    ++ (if include_body_tags then "\n" ++ "</body>\n</html>" else "")
    ++ "\n"

/-- One entry of the file system visible to the tool: a readable file
with the given byte content, or a file that exists but cannot be read
(opening it raises the permission error). -/
inductive FsEntry where
  | readable (content : String)
  | unreadable
  deriving DecidableEq, Repr

/-- The file system, as an association list from path to entry. -/
def FileSystem := List (String × FsEntry)

/-- Look a path up in the file system. -/
def lookupFile (fs : FileSystem) (path : String) : Option FsEntry :=
  (fs.find? (fun p => p.fst = path)).map (fun p => p.snd)

/-- An open byte source with an explicit read position: `read()` returns
everything from the current position and leaves the position at the end,
so a second consumer of the same handle sees only the remainder. -/
structure ByteStream where
  content : String
  pos : Nat
  deriving DecidableEq, Repr

/-- The bytes still unread on the stream (the position counts
characters). -/
def ByteStream.remaining (s : ByteStream) : String :=
  ⟨s.content.data.drop s.pos⟩

/-- `stream.read()`: the remaining bytes, and the stream advanced to its
end. -/
def ByteStream.readAll (s : ByteStream) : String × ByteStream :=
  (s.remaining, ⟨s.content, s.content.data.length⟩)

/-- Diagnostics the source prints to standard error while processing
continues (the two `Warning:` prints of `parse_html_document`). -/
inductive Diagnostic where
  | emptyFileWarning (file : String)
  | noInputWarning
  deriving DecidableEq, Repr

/-- The fatal byte-source failures of `parse_html_document`
(`FileNotFoundError` / `PermissionError`). -/
inductive SourceError where
  | notFound (file : String)
  | permissionDenied (file : String)
  deriving DecidableEq, Repr

/-- Which external parser `parse_html_document` ends up invoking, and on
which bytes: `rawParse content` is `etree.fromstring(content)` (strict
XML), `tolerantParseBytes b` is `etree.parse(stream, html_parser)` where
`b` is what the recovering parser can still read from the stream it is
handed. -/
inductive ParserCall where
  | rawParse (content : String)
  | tolerantParseBytes (content : String)
  deriving DecidableEq, Repr

/-- The fixed fallback document substituted for empty input
(`EMPTY_HTML_FALLBACK`). -/
def EMPTY_HTML_FALLBACK : String := "<html><body></body></html>"

/-- The byte-source half of `parse_html_document`: with an explicit input
file the file is opened (`FileNotFoundError` / `PermissionError` abort)
and fully read, empty content is replaced by the fallback with a warning,
and then raw mode feeds that content to `etree.fromstring` while tolerant
mode hands the *same already-consumed handle* to `etree.parse`; with no
input file, raw mode fully reads the fallback stream (with the same
empty-input fallback) and tolerant mode hands the untouched stream to
`etree.parse`.  Returns the emitted warnings and the resulting parser
invocation. -/
def resolveParserCall (fs : FileSystem) (input_file : String)
    (stdinContent : String) (is_raw_input : Bool) :
    List Diagnostic × Except SourceError ParserCall :=
  if input_file ≠ "" then
    match lookupFile fs input_file with
    | none => ([], Except.error (SourceError.notFound input_file))
    | some FsEntry.unreadable =>
      ([], Except.error (SourceError.permissionDenied input_file))
    | some (FsEntry.readable fileBytes) =>
      let opened : ByteStream := ⟨fileBytes, 0⟩
      let r := opened.readAll
      let warnings :=
        if r.fst = "" then [Diagnostic.emptyFileWarning input_file] else []
      let content := if r.fst = "" then EMPTY_HTML_FALLBACK else r.fst
      if is_raw_input then
        (warnings, Except.ok (ParserCall.rawParse content))
      else
        (warnings, Except.ok (ParserCall.tolerantParseBytes r.snd.remaining))
  else
    if is_raw_input then
      let content0 := stdinContent
      let warnings := if content0 = "" then [Diagnostic.noInputWarning] else []
      let content := if content0 = "" then EMPTY_HTML_FALLBACK else content0
      (warnings, Except.ok (ParserCall.rawParse content))
    else
      ([], Except.ok (ParserCall.tolerantParseBytes stdinContent))

/-- Dispatch a resolved parser invocation to the two external parsers. -/
def runParserCall {α : Type} (rawP tolP : String → Except String α) :
    ParserCall → Except String α
  | ParserCall.rawParse content => rawP content
  | ParserCall.tolerantParseBytes content => tolP content

/-- The pre-validated configuration the argument parser delivers to the
core (`args` after `argparse`): selector list, attribute to extract,
envelope flag, explicit input file (empty string when absent),
existence-check flag, raw-input flag, and whether a positional HTML
argument other than standard input was supplied. -/
structure Config where
  selectors : List String
  attr : String
  include_body_tags : Bool
  input_file : String
  check_existence : Bool
  raw_input : Bool
  html_arg_given : Bool

/-- The observable outcome of one invocation: process exit code, the text
written to standard output, and the diagnostics written to standard
error while processing continued. -/
structure RunResult where
  exitCode : Nat
  stdout : String
  diagnostics : List Diagnostic
  deriving DecidableEq, Repr

/-- `main` of the source: validate the configuration, compile the
selectors, resolve the byte source and parse it, process the elements,
and either report existence or write the formatted output.  The external
collaborators are parameters: `hasCssSelect` / `cssToXpath` model the
`cssselect` capability, `rawP` / `tolP` the two `lxml` parsers producing
a document of type `α`, and `evalQ` XPath evaluation against such a
document. -/
def main {α : Type} (hasCssSelect : Bool)
    (cssToXpath : String → Except String String)
    (fs : FileSystem) (stdinContent : String)
    (rawP tolP : String → Except String α)
    (evalQ : α → String → Except String (List XItem))
    (cfg : Config) : RunResult :=
  if cfg.selectors = [] then ⟨1, "", []⟩
  else if cfg.input_file ≠ "" ∧ cfg.html_arg_given = true then ⟨1, "", []⟩
  else
    match convert_selectors_to_xpath hasCssSelect cssToXpath cfg.selectors with
    | Except.error _ => ⟨1, "", []⟩
    | Except.ok xpath_expressions =>
      let resolved := resolveParserCall fs cfg.input_file stdinContent cfg.raw_input
      match resolved.snd with
      | Except.error _ => ⟨1, "", resolved.fst⟩
      | Except.ok call =>
        match runParserCall rawP tolP call with
        | Except.error _ => ⟨1, "", resolved.fst⟩
        | Except.ok document_tree =>
          match process_elements (evalQ document_tree) cfg.attr
              cfg.check_existence xpath_expressions [] with
          | ProcResult.earlyExit code => ⟨code, "", resolved.fst⟩
          | ProcResult.texts extracted_texts =>
            if cfg.check_existence then
              ⟨if extracted_texts = [] then 1 else 0, "", resolved.fst⟩
            else
              ⟨0, write_output extracted_texts cfg.include_body_tags, resolved.fst⟩

/-- The match list of a successful evaluation, the empty list for a
failed one (used only to state the order decomposition of
`process_elements`). -/
def okList : Except String (List XItem) → List XItem
  | Except.ok l => l
  | Except.error _ => []

/-- Concatenation of the images of a list under a list-valued function,
in order. -/
def concatMapS (f : String → List String) : List String → List String
  | [] => []
  | x :: xs => f x ++ concatMapS f xs

/-! ### Concrete instances of the external collaborators

The source delegates CSS translation to `cssselect` and parsing plus
XPath evaluation to `lxml`.  The fixtures below instantiate those
abstract parameters for concrete runs.  The parser models capture the one
`lxml` behaviour the source's fallback logic is built around (and that
the specification records): the parsers reject empty input ("Document is
empty") and accept the non-empty inputs used here. -/

/-- A translator instance: prefix translation in the style of
`GenericTranslator().css_to_xpath`, which never fails on the selectors
used here. -/
def cssTranslatorModel : String → Except String String :=
  fun s => Except.ok ("descendant-or-self::" ++ s)

/-- `etree.fromstring` instance on a unit document type: rejects empty
input, accepts the rest. -/
def rawParserModel : String → Except String Unit :=
  fun content => if content = "" then Except.error "Document is empty" else Except.ok ()

/-- `etree.parse` with the recovering HTML parser, on a unit document
type: rejects empty input, accepts the rest. -/
def tolerantParserModel : String → Except String Unit :=
  fun content => if content = "" then Except.error "Document is empty" else Except.ok ()

/-- XPath evaluation against the unit document in which no selector
matches anything (e.g. `div` against the fallback document). -/
def evalNothing : Unit → String → Except String (List XItem) :=
  fun _ _ => Except.ok []

/-- The first paragraph of the document `<p> </p><p>x</p>`: text is a
single space. -/
def pElemSpace : Elem := Elem.mk "p" [] " " [] ""

/-- The second paragraph of the document `<p> </p><p>x</p>`. -/
def pElemX : Elem := Elem.mk "p" [] "x" [] ""

/-- XPath evaluation against the parsed document `<p> </p><p>x</p>`: the
selector `p` (compiled to `descendant-or-self::p`) matches the two
paragraph elements in document order. -/
def docPPEval : String → Except String (List XItem) :=
  fun _ => Except.ok [XItem.node pElemSpace, XItem.node pElemX]

/-- The anchor `<a>no-link</a>`: it has no attributes. -/
def aElemNoHref : Elem := Elem.mk "a" [] "no-link" [] ""

/-- The anchor `<a href="http://x">link</a>`. -/
def aElemHref : Elem := Elem.mk "a" [("href", "http://x")] "link" [] ""

/-- The anchor `<a href="">x</a>`, carrying the attribute with an
empty-string value. -/
def aElemEmptyHref : Elem := Elem.mk "a" [("href", "")] "x" [] ""

/-- Evaluation in which the only selector yields one whitespace-only
string result, as `//p/text()` does against `<p> </p>`: the match is
real, but its extracted text is empty after trimming. -/
def wsTextEval : String → Except String (List XItem) :=
  fun _ => Except.ok [XItem.str " "]

/-- Evaluation in which only the selector `//b` matches (one string
result), all others match nothing. -/
def shortCircuitEval : String → Except String (List XItem) :=
  fun s => if s = "//b" then Except.ok [XItem.str "m"] else Except.ok []

/-- Evaluation in which only the selector `//p` matches, with one padded
string result. -/
def sampleEval : String → Except String (List XItem) :=
  fun s => if s = "//p" then Except.ok [XItem.str " hi "] else Except.ok []

/-- A file system holding a non-empty readable page and an unreadable
file. -/
def fsWithPage : FileSystem :=
  [("page.html", FsEntry.readable "<p>x</p>"), ("secret.html", FsEntry.unreadable)]

/-- A file system holding one empty readable file. -/
def fsWithEmpty : FileSystem := [("empty.html", FsEntry.readable "")]

/-- Configuration reading the empty file in tolerant (default) mode with
the selector `div`. -/
def cfgEmptyTol : Config := ⟨["div"], "", false, "empty.html", false, false, false⟩

/-- Configuration reading the empty file in raw mode with the selector
`div`. -/
def cfgEmptyRaw : Config := ⟨["div"], "", false, "empty.html", false, true, false⟩

/-- Configuration reading standard input in tolerant mode with the
selector `div`. -/
def cfgStdinTol : Config := ⟨["div"], "", false, "", false, false, false⟩

/-- Configuration reading standard input in raw mode with the selector
`div`. -/
def cfgStdinRaw : Config := ⟨["div"], "", false, "", false, true, false⟩

/-- Configuration naming an absent input file. -/
def cfgMissing : Config := ⟨["//div"], "", false, "missing.html", false, false, false⟩

/-- Configuration naming an unreadable input file. -/
def cfgSecret : Config := ⟨["//div"], "", false, "secret.html", false, false, false⟩

/-! ### Helper lemmas about lists and stripping -/

theorem dropWhile_idem {α : Type} (p : α → Bool) (l : List α) :
    (l.dropWhile p).dropWhile p = l.dropWhile p := by
  induction l with
  | nil => rfl
  | cons a t ih =>
    by_cases h : p a
    · rw [List.dropWhile_cons_of_pos h]; exact ih
    · rw [List.dropWhile_cons_of_neg h, List.dropWhile_cons_of_neg h]

theorem head?_dropWhile_not {α : Type} (p : α → Bool) (l : List α) (a : α)
    (h : (l.dropWhile p).head? = some a) : p a = false := by
  induction l with
  | nil => simp at h
  | cons b t ih =>
    by_cases hb : p b
    · rw [List.dropWhile_cons_of_pos hb] at h; exact ih h
    · rw [List.dropWhile_cons_of_neg hb] at h
      simp at h
      rw [← h]
      exact Bool.of_not_eq_true hb

theorem getLast?_dropWhile_of_ne_nil {α : Type} (p : α → Bool) (l : List α)
    (h : l.dropWhile p ≠ []) : (l.dropWhile p).getLast? = l.getLast? := by
  induction l with
  | nil => simp at h
  | cons a t ih =>
    by_cases ha : p a
    · rw [List.dropWhile_cons_of_pos ha] at h ⊢
      have ht : t ≠ [] := by
        intro he
        apply h
        rw [he]
        rfl
      match t, ht with
      | b :: r, _ =>
        rw [List.getLast?_cons_cons]
        exact ih h
    · rw [List.dropWhile_cons_of_neg ha]

theorem stripL_getLast?_not_space (l : List Char) (c : Char)
    (h : (stripL l).getLast? = some c) : isPySpace c = false := by
  unfold stripL at h
  rw [List.getLast?_reverse] at h
  exact head?_dropWhile_not isPySpace _ c h

theorem stripL_head?_not_space (l : List Char) (c : Char)
    (h : (stripL l).head? = some c) : isPySpace c = false := by
  unfold stripL at h
  rw [List.head?_reverse] at h
  have hne : (l.dropWhile isPySpace).reverse.dropWhile isPySpace ≠ [] := by
    intro he
    rw [he] at h
    simp at h
  rw [getLast?_dropWhile_of_ne_nil isPySpace _ hne, List.getLast?_reverse] at h
  exact head?_dropWhile_not isPySpace _ c h

theorem stripL_idem (l : List Char) : stripL (stripL l) = stripL l := by
  have h1 : (stripL l).dropWhile isPySpace = stripL l := by
    cases hh : (stripL l).head? with
    | none =>
      have : stripL l = [] := by
        cases hsl : stripL l with
        | nil => rfl
        | cons a t => rw [hsl] at hh; simp at hh
      rw [this]
      rfl
    | some c =>
      have hc : isPySpace c = false := stripL_head?_not_space l c hh
      cases hsl : stripL l with
      | nil => rfl
      | cons a t =>
        rw [hsl] at hh
        simp at hh
        rw [← hh] at hc
        exact List.dropWhile_cons_of_neg (by simp [hc])
  unfold stripL
  unfold stripL at h1
  rw [h1]
  rw [List.reverse_reverse]
  rw [dropWhile_idem]

theorem strip_idem (s : String) : strip (strip s) = strip s :=
  congrArg String.mk (stripL_idem s.data)

theorem strip_eq_empty_iff (s : String) : strip s = "" ↔ stripL s.data = [] := by
  constructor
  · intro h
    have := congrArg String.data h
    exact this
  · intro h
    unfold strip
    rw [h]

/-! ### Properties of extraction -/

theorem process_single_element_some (element : XItem) (attr t : String)
    (h : process_single_element element attr = some t) :
    strip t = t ∧ t ≠ "" := by
  unfold process_single_element at h
  cases hx : extract_element_text element attr with
  | none => rw [hx] at h; simp at h
  | some u =>
    rw [hx] at h
    dsimp only at h
    by_cases hu : u = ""
    · rw [if_pos hu] at h; simp at h
    · rw [if_neg hu] at h
      by_cases hsu : strip u = ""
      · rw [if_pos hsu] at h; simp at h
      · rw [if_neg hsu] at h
        have ht : t = strip u := by
          have := h
          simp at this
          exact this.symm
        subst ht
        exact ⟨strip_idem u, hsu⟩

theorem processItems_mem (elements : List XItem) (attr t : String)
    (h : t ∈ processItems elements attr) : strip t = t ∧ t ≠ "" := by
  unfold processItems at h
  rw [List.mem_filterMap] at h
  obtain ⟨element, _, he⟩ := h
  exact process_single_element_some element attr t he

theorem process_elements_texts_mem
    (evalQ : String → Except String (List XItem)) (attr : String) (chk : Bool) :
    ∀ (xs acc out : List String),
      process_elements evalQ attr chk xs acc = ProcResult.texts out →
      (∀ t ∈ acc, strip t = t ∧ t ≠ "") →
      ∀ t ∈ out, strip t = t ∧ t ≠ "" := by
  intro xs
  induction xs with
  | nil =>
    intro acc out h hacc
    unfold process_elements at h
    have : acc = out := by
      cases h
      rfl
    rw [← this]
    exact hacc
  | cons x rest ih =>
    intro acc out h hacc
    unfold process_elements at h
    cases hev : evalQ x with
    | error e => rw [hev] at h; simp at h
    | ok elements =>
      rw [hev] at h
      dsimp only at h
      by_cases hc : chk = true ∧ elements.isEmpty = false
      · rw [if_pos hc] at h; simp at h
      · rw [if_neg hc] at h
        apply ih _ _ h
        intro t ht
        rw [List.mem_append] at ht
        cases ht with
        | inl hl => exact hacc t hl
        | inr hr => exact processItems_mem elements attr t hr

theorem getLast?_append_right {α : Type} (l1 : List α) :
    ∀ l2 : List α, l2 ≠ [] → (l1 ++ l2).getLast? = l2.getLast? := by
  induction l1 with
  | nil => intro l2 _; rfl
  | cons a t ih =>
    intro l2 h
    have htl : t ++ l2 ≠ [] := by
      intro he
      rcases List.append_eq_nil.mp he with ⟨_, h2⟩
      exact h h2
    cases htl2 : t ++ l2 with
    | nil => exact absurd htl2 htl
    | cons b r =>
      rw [List.cons_append, htl2, List.getLast?_cons_cons, ← htl2, ih l2 h]

theorem joinWith_tab_getLast_not_nl :
    ∀ (texts : List String), (∀ t ∈ texts, strip t = t) →
      ∀ c, (joinWith "\t" texts).data.getLast? = some c → c ≠ '\n' := by
  intro texts
  induction texts with
  | nil =>
    intro _ c hc
    simp [joinWith] at hc
  | cons t rest ih =>
    intro hstr c hc
    cases rest with
    | nil =>
      rw [show joinWith "\t" [t] = t from rfl] at hc
      have hts : strip t = t := hstr t (by simp)
      have hdata : stripL t.data = t.data := congrArg String.data hts
      rw [← hdata] at hc
      have := stripL_getLast?_not_space t.data c hc
      intro he
      rw [he] at this
      simp [isPySpace] at this
    | cons b r =>
      rw [show joinWith "\t" (t :: b :: r) = t ++ "\t" ++ joinWith "\t" (b :: r) from rfl] at hc
      rw [String.data_append, String.data_append] at hc
      rw [List.append_assoc] at hc
      rw [getLast?_append_right t.data _ (by simp)] at hc
      cases hJ : (joinWith "\t" (b :: r)).data with
      | nil =>
        rw [hJ] at hc
        have : ("\t" : String).data ++ ([] : List Char) = ['\t'] := rfl
        rw [this] at hc
        simp at hc
        subst hc
        decide
      | cons d ds =>
        rw [hJ] at hc
        rw [show ("\t" : String).data = ['\t'] from rfl] at hc
        rw [getLast?_append_right ['\t'] (d :: ds) (by simp)] at hc
        rw [← hJ] at hc
        exact ih (fun u hu => hstr u (by simp [hu])) c hc

theorem process_elements_false_texts
    (evalQ : String → Except String (List XItem)) (attr : String) :
    ∀ (xs acc out : List String),
      process_elements evalQ attr false xs acc = ProcResult.texts out →
      out = acc ++ concatMapS (fun x => processItems (okList (evalQ x)) attr) xs := by
  intro xs
  induction xs with
  | nil =>
    intro acc out h
    unfold process_elements at h
    cases h
    simp [concatMapS]
  | cons x rest ih =>
    intro acc out h
    unfold process_elements at h
    cases hev : evalQ x with
    | error e => rw [hev] at h; simp at h
    | ok elements =>
      rw [hev] at h
      dsimp only at h
      rw [if_neg (by simp)] at h
      have := ih _ _ h
      rw [this]
      rw [show concatMapS (fun y => processItems (okList (evalQ y)) attr) (x :: rest) =
            processItems (okList (evalQ x)) attr ++
              concatMapS (fun y => processItems (okList (evalQ y)) attr) rest from rfl]
      rw [hev]
      rw [List.append_assoc]
      rfl

theorem process_elements_congr
    (evalQ evalQ2 : String → Except String (List XItem)) (attr : String) (chk : Bool) :
    ∀ (xs acc : List String), (∀ x ∈ xs, evalQ2 x = evalQ x) →
      process_elements evalQ2 attr chk xs acc = process_elements evalQ attr chk xs acc := by
  intro xs
  induction xs with
  | nil => intro acc _; rfl
  | cons x rest ih =>
    intro acc hagree
    unfold process_elements
    rw [hagree x (by simp)]
    cases evalQ x with
    | error e => rfl
    | ok elements =>
      dsimp only
      by_cases hc : chk = true ∧ elements.isEmpty = false
      · rw [if_pos hc, if_pos hc]
      · rw [if_neg hc, if_neg hc]
        exact ih _ (fun y hy => hagree y (by simp [hy]))

theorem process_elements_check_all_empty
    (evalQ : String → Except String (List XItem)) (attr : String) :
    ∀ (xs acc : List String), (∀ y ∈ xs, evalQ y = Except.ok []) →
      process_elements evalQ attr true xs acc = ProcResult.texts acc := by
  intro xs
  induction xs with
  | nil => intro acc _; rfl
  | cons x rest ih =>
    intro acc hall
    unfold process_elements
    rw [hall x (by simp)]
    dsimp only
    rw [if_neg (by simp)]
    have : acc ++ processItems [] attr = acc := by simp [processItems]
    rw [this]
    exact ih acc (fun y hy => hall y (by simp [hy]))

theorem process_elements_check_hit
    (evalQ : String → Except String (List XItem)) (attr : String) :
    ∀ (xs1 : List String) (x : String) (xs2 : List String) (l : List XItem)
      (acc : List String),
      (∀ y ∈ xs1, evalQ y = Except.ok []) → evalQ x = Except.ok l → l ≠ [] →
      process_elements evalQ attr true (xs1 ++ x :: xs2) acc =
        ProcResult.earlyExit 0 := by
  intro xs1
  induction xs1 with
  | nil =>
    intro x xs2 l acc _ hx hl
    rw [List.nil_append]
    unfold process_elements
    rw [hx]
    dsimp only
    rw [if_pos ⟨rfl, by cases l with | nil => exact absurd rfl hl | cons a t => rfl⟩]
  | cons y ys ih =>
    intro x xs2 l acc hall hx hl
    rw [List.cons_append]
    unfold process_elements
    rw [hall y (by simp)]
    dsimp only
    rw [if_neg (by simp)]
    have : acc ++ processItems [] attr = acc := by simp [processItems]
    rw [this]
    exact ih x xs2 l acc (fun z hz => hall z (by simp [hz])) hx hl

theorem convert_error_characterization
    (hasCssSelect : Bool) (cssToXpath : String → Except String String) :
    ∀ (selectors : List String) (e : CompileError),
      convert_selectors_to_xpath hasCssSelect cssToXpath selectors = Except.error e →
      ∃ s ∈ selectors, is_xpath_selector s = false ∧
        ((hasCssSelect = false ∧ e = CompileError.capabilityMissing s) ∨
         (∃ msg, cssToXpath s = Except.error msg ∧
            e = CompileError.invalidSelector s msg)) := by
  intro selectors
  induction selectors with
  | nil => intro e h; simp [convert_selectors_to_xpath] at h
  | cons s rest ih =>
    intro e h
    unfold convert_selectors_to_xpath at h
    by_cases hxp : is_xpath_selector s
    · rw [if_pos hxp] at h
      cases hr : convert_selectors_to_xpath hasCssSelect cssToXpath rest with
      | error e2 =>
        rw [hr] at h
        have he : e2 = e := by
          simp [Except.map] at h
          exact h
        obtain ⟨s2, hs2, hprop⟩ := ih e (he ▸ hr)
        exact ⟨s2, by simp [hs2], hprop⟩
      | ok xs => rw [hr] at h; simp [Except.map] at h
    · rw [if_neg hxp] at h
      by_cases hcap : hasCssSelect = false
      · rw [if_pos hcap] at h
        have he : e = CompileError.capabilityMissing s := by
          simp at h
          exact h.symm
        exact ⟨s, by simp, by simp [hxp], Or.inl ⟨hcap, he⟩⟩
      · rw [if_neg hcap] at h
        cases ht : cssToXpath s with
        | error msg =>
          rw [ht] at h
          have he : e = CompileError.invalidSelector s msg := by
            simp at h
            exact h.symm
          exact ⟨s, by simp, by simp [hxp], Or.inr ⟨msg, ht, he⟩⟩
        | ok x =>
          rw [ht] at h
          dsimp only at h
          cases hr : convert_selectors_to_xpath hasCssSelect cssToXpath rest with
          | error e2 =>
            rw [hr] at h
            have he : e2 = e := by
              simp [Except.map] at h
              exact h
            obtain ⟨s2, hs2, hprop⟩ := ih e (he ▸ hr)
            exact ⟨s2, by simp [hs2], hprop⟩
          | ok xs => rw [hr] at h; simp [Except.map] at h

theorem convert_error_exists
    (hasCssSelect : Bool) (cssToXpath : String → Except String String) :
    ∀ (selectors : List String),
      (∃ s ∈ selectors, is_xpath_selector s = false ∧
         (hasCssSelect = false ∨ ∃ msg, cssToXpath s = Except.error msg)) →
      ∃ e, convert_selectors_to_xpath hasCssSelect cssToXpath selectors =
        Except.error e := by
  intro selectors
  induction selectors with
  | nil => intro h; simp at h
  | cons s rest ih =>
    intro h
    obtain ⟨s2, hs2mem, hs2x, hs2f⟩ := h
    unfold convert_selectors_to_xpath
    by_cases hxp : is_xpath_selector s
    · rw [if_pos hxp]
      have hs2rest : s2 ∈ rest := by
        rcases List.mem_cons.mp hs2mem with heq | hmem
        · rw [heq] at hs2x; rw [hs2x] at hxp; exact absurd hxp (by simp)
        · exact hmem
      obtain ⟨e, he⟩ := ih ⟨s2, hs2rest, hs2x, hs2f⟩
      exact ⟨e, by rw [he]; rfl⟩
    · rw [if_neg hxp]
      by_cases hcap : hasCssSelect = false
      · rw [if_pos hcap]
        exact ⟨CompileError.capabilityMissing s, rfl⟩
      · rw [if_neg hcap]
        cases ht : cssToXpath s with
        | error msg => exact ⟨CompileError.invalidSelector s msg, rfl⟩
        | ok x =>
          dsimp only
          have hs2rest : s2 ∈ rest ∨ s2 = s := by
            rcases List.mem_cons.mp hs2mem with heq | hmem
            · exact Or.inr heq
            · exact Or.inl hmem
          rcases hs2rest with hmem | heq
          · obtain ⟨e, he⟩ := ih ⟨s2, hmem, hs2x, hs2f⟩
            exact ⟨e, by rw [he]; rfl⟩
          · rcases hs2f with hcap2 | ⟨msg, hmsg⟩
            · exact absurd hcap2 hcap
            · rw [heq] at hmsg
              rw [hmsg] at ht
              exact Except.noConfusion ht

/-! ### Further helper lemmas for the output formatter -/

theorem write_output_eq (texts : List String) (b : Bool) :
    write_output texts b =
      (if b then "<!DOCTYPE html>" ++ "\n" ++ "<html>\n<body>" ++ "\n" else "")
        ++ joinWith "\t" texts
        ++ (if b then "\n" ++ "</body>\n</html>" else "") ++ "\n" := by
  cases texts with
  | nil => rfl
  | cons t r => rfl

theorem ends_nl (s : String) :
    (s ++ "\n").data.getLast? = some '\n' ∧ (s ++ "\n").data.dropLast = s.data := by
  constructor
  · rw [String.data_append, show ("\n" : String).data = ['\n'] from rfl]
    exact List.getLast?_concat _
  · rw [String.data_append, show ("\n" : String).data = ['\n'] from rfl]
    exact List.dropLast_concat

theorem close_tag_getLast (s : String) :
    (s ++ ("\n" ++ "</body>\n</html>")).data.getLast? = some '>' := by
  rw [String.data_append]
  rw [getLast?_append_right s.data ("\n" ++ "</body>\n</html>").data (by decide)]
  decide

/-! ### The claims -/

/-- Claim C1, counterexample: in existence-check mode the source exits
with code 0 the instant a selector yields any raw match, even when every
match is discarded (its extracted text is empty after trimming) — here
the single selector yields exactly one whitespace-only string result, so
under the claim no selector yields a non-discarded match and the outcome
should be exit code 1, yet the code reports exit code 0. -/
theorem scrape_c1_existence_counterexample :
    checkModeExit (process_elements wsTextEval "" true ["//p/text()"] []) = 0 ∧
    checkModeExit (process_elements wsTextEval "" true ["//p/text()"] []) ≠ 1 ∧
    processItems [XItem.str " "] "" = [] :=
  ⟨rfl, by decide, rfl⟩

/-- Claim C1 (amended): in existence-check mode, the invocation exits
with code 0 the instant any selector yields at least one match — whether
or not its extracted text survives trimming — without evaluating the
remaining selectors; if every selector yields an empty match list the
exit code is 1. -/
theorem scrape_c1_existence_check :
    (∀ (evalQ : String → Except String (List XItem)) (attr : String)
       (xs1 : List String) (x : String) (xs2 : List String) (l : List XItem),
       (∀ y ∈ xs1, evalQ y = Except.ok []) → evalQ x = Except.ok l → l ≠ [] →
       process_elements evalQ attr true (xs1 ++ x :: xs2) [] =
         ProcResult.earlyExit 0) ∧
    (∀ (evalQ : String → Except String (List XItem)) (attr : String)
       (xs : List String),
       (∀ y ∈ xs, evalQ y = Except.ok []) →
       checkModeExit (process_elements evalQ attr true xs []) = 1) := by
  constructor
  · intro evalQ attr xs1 x xs2 l h1 h2 h3
    exact process_elements_check_hit evalQ attr xs1 x xs2 l [] h1 h2 h3
  · intro evalQ attr xs h
    rw [process_elements_check_all_empty evalQ attr xs [] h]
    rfl

/-- Claim C1, witness: with selectors `//a`, `//b`, `//c` where only
`//b` matches, the run short-circuits to exit code 0 regardless of what
follows `//b`. -/
theorem scrape_c1_existence_check_witness :
    process_elements shortCircuitEval "" true (["//a"] ++ "//b" :: ["//c"]) [] =
      ProcResult.earlyExit 0 :=
  scrape_c1_existence_check.1 shortCircuitEval "" ["//a"] "//b" ["//c"]
    [XItem.str "m"]
    (by
      intro y hy
      rw [List.mem_singleton] at hy
      subst hy
      rfl)
    rfl
    (by simp)

/-- Claim C2 (code bug): the fallback for empty input is effective only
in raw mode.  In tolerant mode with an empty explicit file the warning is
emitted and the fallback computed, but the recovering parser is handed
the already-consumed file handle — it sees empty input and the run exits
with code 1 instead of the claimed 0; with empty standard input in
tolerant mode there is no substitution at all and the run exits 1 with no
diagnostic.  In raw mode (file or stream) the fallback is substituted and
the run exits 0 as claimed. -/
theorem scrape_c2_empty_input :
    main true cssTranslatorModel fsWithEmpty "" rawParserModel tolerantParserModel
        evalNothing cfgEmptyTol =
      ⟨1, "", [Diagnostic.emptyFileWarning "empty.html"]⟩ ∧
    main true cssTranslatorModel fsWithEmpty "" rawParserModel tolerantParserModel
        evalNothing cfgEmptyRaw =
      ⟨0, "\n", [Diagnostic.emptyFileWarning "empty.html"]⟩ ∧
    main true cssTranslatorModel fsWithEmpty "" rawParserModel tolerantParserModel
        evalNothing cfgStdinTol = ⟨1, "", []⟩ ∧
    main true cssTranslatorModel fsWithEmpty "" rawParserModel tolerantParserModel
        evalNothing cfgStdinRaw = ⟨0, "\n", [Diagnostic.noInputWarning]⟩ :=
  ⟨rfl, rfl, rfl, rfl⟩

/-- Claim C3 (code bug): with an explicit input file in tolerant mode the
recovering parser receives the empty remainder of the consumed file
handle, not the file's content `<p>x</p>`; the absent-file and
unreadable-file failures behave as claimed, with exit code 1. -/
theorem scrape_c3_file_source :
    (resolveParserCall fsWithPage "page.html" "" false).snd =
      Except.ok (ParserCall.tolerantParseBytes "") ∧
    ParserCall.tolerantParseBytes "" ≠
      ParserCall.tolerantParseBytes "<p>x</p>" ∧
    (resolveParserCall fsWithPage "missing.html" "" false).snd =
      Except.error (SourceError.notFound "missing.html") ∧
    (resolveParserCall fsWithPage "secret.html" "" false).snd =
      Except.error (SourceError.permissionDenied "secret.html") ∧
    main true cssTranslatorModel fsWithPage "" rawParserModel tolerantParserModel
        evalNothing cfgMissing = ⟨1, "", []⟩ ∧
    main true cssTranslatorModel fsWithPage "" rawParserModel tolerantParserModel
        evalNothing cfgSecret = ⟨1, "", []⟩ :=
  ⟨rfl, by decide, rfl, rfl, rfl, rfl⟩

/-- Claim C4: when selector compilation succeeds on a list of length n,
exactly n XPath expressions are produced in input order; a selector
classified as XPath (prefix `//`, `./` or `(`) is kept verbatim, any
other is the translator's output for that selector alone, so no
selector's compilation depends on another. -/
theorem scrape_c4_compilation :
    ∀ (hasCssSelect : Bool) (cssToXpath : String → Except String String)
      (selectors out : List String),
      convert_selectors_to_xpath hasCssSelect cssToXpath selectors = Except.ok out →
      out.length = selectors.length ∧
      List.Forall₂ (fun s x =>
        (is_xpath_selector s = true → x = s) ∧
        (is_xpath_selector s = false → cssToXpath s = Except.ok x)) selectors out := by
  intro hasCssSelect cssToXpath selectors
  induction selectors with
  | nil =>
    intro out h
    unfold convert_selectors_to_xpath at h
    cases h
    exact ⟨rfl, List.Forall₂.nil⟩
  | cons s rest ih =>
    intro out h
    unfold convert_selectors_to_xpath at h
    by_cases hxp : is_xpath_selector s
    · rw [if_pos hxp] at h
      cases hr : convert_selectors_to_xpath hasCssSelect cssToXpath rest with
      | error e => rw [hr] at h; simp [Except.map] at h
      | ok xs =>
        rw [hr] at h
        have hout : out = s :: xs := by
          simp [Except.map] at h
          exact h.symm
        subst hout
        obtain ⟨hlen, hfa⟩ := ih xs hr
        refine ⟨by simp [hlen], List.Forall₂.cons ⟨fun _ => rfl, fun hf => ?_⟩ hfa⟩
        rw [hxp] at hf
        exact Bool.noConfusion hf
    · rw [if_neg hxp] at h
      by_cases hcap : hasCssSelect = false
      · rw [if_pos hcap] at h
        exact Except.noConfusion h
      · rw [if_neg hcap] at h
        cases ht : cssToXpath s with
        | error msg => rw [ht] at h; exact Except.noConfusion h
        | ok x =>
          rw [ht] at h
          dsimp only at h
          cases hr : convert_selectors_to_xpath hasCssSelect cssToXpath rest with
          | error e => rw [hr] at h; simp [Except.map] at h
          | ok xs =>
            rw [hr] at h
            have hout : out = x :: xs := by
              simp [Except.map] at h
              exact h.symm
            subst hout
            obtain ⟨hlen, hfa⟩ := ih xs hr
            refine ⟨by simp [hlen],
              List.Forall₂.cons ⟨fun htr => absurd htr hxp, fun _ => ht⟩ hfa⟩

/-- Claim C4, witness: compiling `//a` (XPath, kept verbatim) and `p`
(CSS, translated) produces two expressions in order. -/
theorem scrape_c4_compilation_witness :
    (["//a", "descendant-or-self::p"] : List String).length =
      (["//a", "p"] : List String).length ∧
    List.Forall₂ (fun s x =>
      (is_xpath_selector s = true → x = s) ∧
      (is_xpath_selector s = false → cssTranslatorModel s = Except.ok x))
      ["//a", "p"] ["//a", "descendant-or-self::p"] :=
  scrape_c4_compilation true cssTranslatorModel ["//a", "p"]
    ["//a", "descendant-or-self::p"] rfl

/-- Claim C5: selector compilation fails exactly when some selector is
classified as CSS and either the translator capability is absent
(`capabilityMissing`) or the translator rejects it (`invalidSelector`,
carrying the offending selector text); and whenever it fails, the whole
invocation exits with code 1, writes nothing to standard output, and
performs no byte-source or parsing work — the result is the same for
every parser and evaluator. -/
theorem scrape_c5_fail_fast :
    ∀ (hasCssSelect : Bool) (cssToXpath : String → Except String String)
      (selectors : List String),
      ((∃ e, convert_selectors_to_xpath hasCssSelect cssToXpath selectors =
          Except.error e) ↔
        ∃ s ∈ selectors, is_xpath_selector s = false ∧
          (hasCssSelect = false ∨ ∃ msg, cssToXpath s = Except.error msg)) ∧
      (∀ e, convert_selectors_to_xpath hasCssSelect cssToXpath selectors =
          Except.error e →
        (∃ s ∈ selectors, is_xpath_selector s = false ∧
           ((hasCssSelect = false ∧ e = CompileError.capabilityMissing s) ∨
            (∃ msg, cssToXpath s = Except.error msg ∧
               e = CompileError.invalidSelector s msg))) ∧
        (∀ (α : Type) (fs : FileSystem) (stdinContent : String)
           (rawP tolP : String → Except String α)
           (evalQ : α → String → Except String (List XItem))
           (attr : String) (ibt : Bool) (input_file : String) (chk raw : Bool),
           main hasCssSelect cssToXpath fs stdinContent rawP tolP evalQ
             ⟨selectors, attr, ibt, input_file, chk, raw, false⟩ = ⟨1, "", []⟩)) := by
  intro hasCssSelect cssToXpath selectors
  constructor
  · constructor
    · rintro ⟨e, he⟩
      obtain ⟨s, hmem, hxp, hkind⟩ :=
        convert_error_characterization hasCssSelect cssToXpath selectors e he
      refine ⟨s, hmem, hxp, ?_⟩
      rcases hkind with ⟨hc, _⟩ | ⟨msg, hmsg, _⟩
      · exact Or.inl hc
      · exact Or.inr ⟨msg, hmsg⟩
    · exact convert_error_exists hasCssSelect cssToXpath selectors
  · intro e he
    refine ⟨convert_error_characterization hasCssSelect cssToXpath selectors e he, ?_⟩
    intro α fs stdinContent rawP tolP evalQ attr ibt input_file chk raw
    have hne : selectors ≠ [] := by
      intro hnil
      rw [hnil] at he
      exact Except.noConfusion he
    unfold main
    dsimp only
    rw [if_neg hne]
    rw [if_neg (by simp)]
    rw [he]

/-- Claim C5, witness: with the translator capability absent, the CSS
selector `p` makes the whole invocation exit 1 with no output. -/
theorem scrape_c5_fail_fast_witness :
    main false cssTranslatorModel [] "" rawParserModel tolerantParserModel
      evalNothing ⟨["p"], "", false, "", false, false, false⟩ = ⟨1, "", []⟩ :=
  ((scrape_c5_fail_fast false cssTranslatorModel ["p"]).2
      (CompileError.capabilityMissing "p") rfl).2
    Unit [] "" rawParserModel tolerantParserModel evalNothing "" false "" false false

/-- Claim C6, counterexample: against the document `<p> </p><p>x</p>`
with selector `p` the extraction serialises the matched elements in
full, producing the two entries `<p> </p>` and `<p>x</p>`, not the
single entry `x` the claim states. -/
theorem scrape_c6_example_counterexample :
    process_elements docPPEval "" false ["descendant-or-self::p"] [] =
      ProcResult.texts ["<p> </p>", "<p>x</p>"] ∧
    process_elements docPPEval "" false ["descendant-or-self::p"] [] ≠
      ProcResult.texts ["x"] :=
  ⟨rfl, by decide⟩

/-- Claim C6 (amended): every entry of the extracted-text sequence is
non-empty after trimming — each produced text is stripped and empty
results are discarded; the document `<p> </p><p>x</p>` with selector `p`
yields exactly the two serialised entries `<p> </p>` and `<p>x</p>`
(both non-empty after trimming), not the bare text `x`. -/
theorem scrape_c6_trim_invariant :
    (∀ (evalQ : String → Except String (List XItem)) (attr : String) (chk : Bool)
       (xs out : List String),
       process_elements evalQ attr chk xs [] = ProcResult.texts out →
       ∀ t ∈ out, strip t = t ∧ strip t ≠ "") ∧
    process_elements docPPEval "" false ["descendant-or-self::p"] [] =
      ProcResult.texts ["<p> </p>", "<p>x</p>"] := by
  constructor
  · intro evalQ attr chk xs out h t ht
    obtain ⟨h1, h2⟩ :=
      process_elements_texts_mem evalQ attr chk xs [] out h
        (by intro u hu; simp at hu) t ht
    refine ⟨h1, ?_⟩
    rw [h1]
    exact h2
  · rfl

/-- Claim C6, witness: the entry `<p>x</p>` of the example run is fixed
by stripping and non-empty after trimming. -/
theorem scrape_c6_trim_invariant_witness :
    strip "<p>x</p>" = "<p>x</p>" ∧ strip "<p>x</p>" ≠ "" :=
  scrape_c6_trim_invariant.1 docPPEval "" false ["descendant-or-self::p"]
    ["<p> </p>", "<p>x</p>"] rfl "<p>x</p>"
    (List.mem_cons_of_mem _ (List.mem_singleton.mpr rfl))

/-- Claim C7: when an attribute is requested, an element lacking it
contributes no text and causes no error — the node is skipped; against
`<a>no-link</a><a href="http://x">link</a>` with attribute `href` and
selector `a`, exactly the entry `http://x` is produced. -/
theorem scrape_c7_missing_attribute :
    (∀ (e : Elem) (attr : String) (rest : List XItem),
       attr ≠ "" → Elem.get e attr = none →
       processItems (XItem.node e :: rest) attr = processItems rest attr) ∧
    processItems [XItem.node aElemNoHref, XItem.node aElemHref] "href" =
      ["http://x"] := by
  constructor
  · intro e attr rest hne hget
    have hps : process_single_element (XItem.node e) attr = none := by
      unfold process_single_element extract_element_text
      dsimp only
      rw [if_neg hne, hget]
    unfold processItems
    exact List.filterMap_cons_none hps
  · rfl

/-- Claim C7, witness: the anchor with no `href` contributes nothing. -/
theorem scrape_c7_missing_attribute_witness :
    processItems [XItem.node aElemNoHref, XItem.node aElemHref] "href" =
      processItems [XItem.node aElemHref] "href" :=
  scrape_c7_missing_attribute.1 aElemNoHref "href" [XItem.node aElemHref]
    (by decide) rfl

/-- Claim C8: the formatted output is the tab-join of the entries,
preceded by the fixed DOCTYPE/html/body opening and followed by the
matching closing when wrapping is requested, and terminates with exactly
one trailing newline (the final character is a newline and the character
before it is not); the formatter is a total function, hence has no
failure modes. -/
theorem scrape_c8_format :
    (∀ (texts : List String) (b : Bool),
      write_output texts b =
        (if b then "<!DOCTYPE html>" ++ "\n" ++ "<html>\n<body>" ++ "\n" else "")
          ++ joinWith "\t" texts
          ++ (if b then "\n" ++ "</body>\n</html>" else "") ++ "\n") ∧
    (∀ (texts : List String) (b : Bool), (∀ t ∈ texts, strip t = t) →
      (write_output texts b).data.getLast? = some '\n' ∧
      (write_output texts b).data.dropLast.getLast? ≠ some '\n') := by
  constructor
  · exact write_output_eq
  · intro texts b hstr
    cases b with
    | false =>
      rw [write_output_eq texts false]
      rw [show (if (false : Bool) then
            "<!DOCTYPE html>" ++ "\n" ++ "<html>\n<body>" ++ "\n" else "") = ""
          from rfl]
      rw [show (if (false : Bool) then "\n" ++ "</body>\n</html>" else "") = ""
          from rfl]
      obtain ⟨e1, e2⟩ := ends_nl (("" ++ joinWith "\t" texts) ++ "")
      refine ⟨e1, ?_⟩
      rw [e2]
      have hd : (("" ++ joinWith "\t" texts) ++ "").data = (joinWith "\t" texts).data := by
        rw [String.data_append, String.data_append]
        rw [show ("" : String).data = [] from rfl]
        simp
      rw [hd]
      intro hcon
      exact joinWith_tab_getLast_not_nl texts hstr '\n' hcon rfl
    | true =>
      rw [write_output_eq texts true]
      rw [show (if (true : Bool) then
            "<!DOCTYPE html>" ++ "\n" ++ "<html>\n<body>" ++ "\n" else "") =
          "<!DOCTYPE html>" ++ "\n" ++ "<html>\n<body>" ++ "\n" from rfl]
      rw [show (if (true : Bool) then "\n" ++ "</body>\n</html>" else "") =
          "\n" ++ "</body>\n</html>" from rfl]
      obtain ⟨e1, e2⟩ := ends_nl
        ((("<!DOCTYPE html>" ++ "\n" ++ "<html>\n<body>" ++ "\n")
            ++ joinWith "\t" texts) ++ ("\n" ++ "</body>\n</html>"))
      refine ⟨e1, ?_⟩
      rw [e2]
      rw [close_tag_getLast
        (("<!DOCTYPE html>" ++ "\n" ++ "<html>\n<body>" ++ "\n")
          ++ joinWith "\t" texts)]
      decide

/-- Claim C8, witness: the unwrapped output for the single entry `x`
ends with exactly one newline. -/
theorem scrape_c8_format_witness :
    (write_output ["x"] false).data.getLast? = some '\n' ∧
    (write_output ["x"] false).data.dropLast.getLast? ≠ some '\n' :=
  scrape_c8_format.2 ["x"] false
    (by
      intro t ht
      rw [List.mem_singleton] at ht
      subst ht
      rfl)

/-- Claim C9: in normal mode the extracted-text sequence is exactly the
concatenation, in selector declaration order, of each selector's
surviving texts in match (document) order; and extraction is
deterministic — any two runs over the same document (evaluations
agreeing on every selector) produce identical sequences. -/
theorem scrape_c9_deterministic :
    (∀ (evalQ : String → Except String (List XItem)) (attr : String)
       (xs out : List String),
       process_elements evalQ attr false xs [] = ProcResult.texts out →
       out = concatMapS (fun x => processItems (okList (evalQ x)) attr) xs) ∧
    (∀ (evalQ evalQ2 : String → Except String (List XItem)) (attr : String)
       (xs : List String),
       (∀ x ∈ xs, evalQ2 x = evalQ x) →
       process_elements evalQ2 attr false xs [] =
         process_elements evalQ attr false xs []) := by
  constructor
  · intro evalQ attr xs out h
    have := process_elements_false_texts evalQ attr xs [] out h
    rw [List.nil_append] at this
    exact this
  · intro evalQ evalQ2 attr xs h
    exact process_elements_congr evalQ evalQ2 attr false xs [] h

/-- Claim C9, witness: the run over the single selector `//p` yields the
per-selector concatenation. -/
theorem scrape_c9_deterministic_witness :
    (["hi"] : List String) =
      concatMapS (fun x => processItems (okList (sampleEval x)) "") ["//p"] :=
  scrape_c9_deterministic.1 sampleEval "" ["//p"] ["hi"] rfl

/-- Claim C10: when an attribute is requested, an element carrying it
with an empty-string value contributes no entry, exactly as if the
attribute were absent, because the extracted text must be truthy before
trimming; `<a href="">x</a>` with attribute `href` yields no entry. -/
theorem scrape_c10_empty_attribute :
    (∀ (e : Elem) (attr : String) (rest : List XItem),
       attr ≠ "" → Elem.get e attr = some "" →
       processItems (XItem.node e :: rest) attr = processItems rest attr) ∧
    processItems [XItem.node aElemEmptyHref] "href" = [] := by
  constructor
  · intro e attr rest hne hget
    have hps : process_single_element (XItem.node e) attr = none := by
      unfold process_single_element extract_element_text
      dsimp only
      rw [if_neg hne, hget]
      rfl
    unfold processItems
    exact List.filterMap_cons_none hps
  · rfl

/-- Claim C10, witness: the anchor with an empty `href` value is
skipped. -/
theorem scrape_c10_empty_attribute_witness :
    processItems [XItem.node aElemEmptyHref] "href" = processItems [] "href" :=
  scrape_c10_empty_attribute.1 aElemEmptyHref "href" [] (by decide) rfl

end Scrape
